import Mathlib

/-!
# Tube Bite — verification of the clip-generation spec against the code

Shallow embedding of the Tube Bite repository (React frontend in
`src/src`, plus the pipeline contract of the specification for the
backend pipeline, which is not part of the reviewed source tree).

Definitions are translated from the TypeScript source where it exists
(`src/src/types/index.ts` Dashboard component, `src/src/pages/History.tsx`);
the pipeline core (Selector, Moment Detector, Clip Renderer, Orchestrator)
exists only as a FastAPI backend that is not in the source tree, so those
components are modelled from the specification, as marked on each
definition.
-/

namespace TubeBite

/-! ## Data model (from `src/src/types/index.ts`) -/

/-- Aspect-ratio enum from `ClipSettings.aspectRatio`:
`'9:16' | '1:1' | '4:5' | '16:9'`. -/
inductive Aspect
  | r9x16
  | r1x1
  | r4x5
  | r16x9
deriving DecidableEq

/-- `ClipSettings.duration : 'auto' | number` (seconds). -/
inductive Duration
  | auto
  | fixed (secs : Nat)
deriving DecidableEq

/-- `type DetectionMethod = 'ai'` — only one detection method. -/
inductive DetectionMethod
  | ai
deriving DecidableEq

/-- `interface ClipSettings` from `src/src/types/index.ts`. -/
structure ClipSettings where
  duration : Duration
  aspect : Aspect
  numberOfClips : Nat
  generateSubtitles : Bool
  template : String
  detectionMethod : DetectionMethod
deriving DecidableEq

/-- `interface GeneratedClip` from `src/src/types/index.ts` (optional
fields as `Option`; numeric score/timestamps as rationals). -/
structure GeneratedClip where
  id : String
  title : String
  thumbnail : String
  clipLength : String
  aspect : String
  template : String
  hasSubtitles : Bool
  videoUrl : String
  downloadUrl : String
  createdAt : String
  viralReason : Option String
  viralScore : Option ℚ
  startTime : Option ℚ
  endTime : Option ℚ
deriving DecidableEq

/-- `HistoryItem.status : 'completed' | 'processing' | 'failed'`. -/
inductive RunStatus
  | completed
  | processing
  | failed
deriving DecidableEq

/-- `VideoSource.type : 'youtube' | 'twitch' | 'upload'`. -/
inductive SourceType
  | youtube
  | twitch
  | upload
deriving DecidableEq

/-- `interface HistoryItem` from `src/src/types/index.ts`. -/
structure HistoryItem where
  id : String
  sourceType : SourceType
  sourceName : String
  sourceThumbnail : String
  clips : List GeneratedClip
  settings : ClipSettings
  createdAt : String
  status : RunStatus
  deletedAt : Option String
deriving DecidableEq

/-- Spec §3 **CandidateMoment**: `{startTime, endTime, viralScore, reason}`
(times in seconds, score in `[0,1]`, reason free text). -/
structure CandidateMoment where
  startTime : ℚ
  endTime : ℚ
  viralScore : ℚ
  reason : String
deriving DecidableEq

/-! ## Moment Ranker/Selector

Modelled from the spec: §4.4, `select(candidates, requestedCount,
requestedDuration)`.  The Selector is part of the FastAPI backend, which
is not in the reviewed source tree; the algorithm below follows the
spec's five numbered steps: stable sort by descending score with ties
broken by earlier start, greedy acceptance of non-overlapping ranges
(tolerance 0), clamping of an accepted range to a fixed requested
duration centred on the candidate's midpoint and re-clamped to
`[0, mediaDuration]`, stopping at `requestedCount`. -/

/-- Sort key of spec §4.4 step 1: descending score, ties broken by
earlier start time. -/
def candBefore (a b : CandidateMoment) : Prop :=
  b.viralScore < a.viralScore ∨
    (a.viralScore = b.viralScore ∧ a.startTime ≤ b.startTime)

instance : DecidableRel candBefore := fun a b => by
  unfold candBefore; infer_instance

instance : IsTotal CandidateMoment candBefore where
  total a b := by
    rcases lt_trichotomy a.viralScore b.viralScore with h | h | h
    · exact Or.inr (Or.inl h)
    · rcases le_total a.startTime b.startTime with h2 | h2
      · exact Or.inl (Or.inr ⟨h, h2⟩)
      · exact Or.inr (Or.inr ⟨h.symm, h2⟩)
    · exact Or.inl (Or.inl h)

instance : IsTrans CandidateMoment candBefore where
  trans a b c hab hbc := by
    rcases hab with h1 | ⟨h1, h1s⟩
    · rcases hbc with h2 | ⟨h2, _⟩
      · exact Or.inl (h2.trans h1)
      · exact Or.inl (h2 ▸ h1)
    · rcases hbc with h2 | ⟨h2, h2s⟩
      · exact Or.inl (h1 ▸ h2)
      · exact Or.inr ⟨h1.trans h2, h1s.trans h2s⟩

/-- Spec §4.4 step 1: deterministic, stable sort. -/
def sortCandidates (l : List CandidateMoment) : List CandidateMoment :=
  l.insertionSort candBefore

/-- Two time ranges overlap (by more than the default tolerance 0) when
each starts strictly before the other ends. -/
def overlapB (a b : CandidateMoment) : Bool :=
  decide (a.startTime < b.endTime) && decide (b.startTime < a.endTime)

/-- A candidate is acceptable when it overlaps no already-accepted
moment (spec §4.4 step 2). -/
def fitsAccepted (acc : List CandidateMoment) (c : CandidateMoment) : Bool :=
  acc.all fun a => !overlapB a c

/-- Spec §4.4 step 3: for a fixed requested duration, clamp the range to
exactly that duration centred on the candidate's midpoint, re-clamped to
stay within `[0, mediaDuration]`. `auto` leaves the range unchanged. -/
def clampMoment (d : Duration) (mediaDuration : ℚ) (c : CandidateMoment) :
    CandidateMoment :=
  match d with
  | .auto => c
  | .fixed secs =>
      let mid := (c.startTime + c.endTime) / 2
      let half := (secs : ℚ) / 2
      { c with
        startTime := max 0 (mid - half),
        endTime := min mediaDuration (mid + half) }

/-- Greedy acceptance with a remaining budget (spec §4.4 steps 2–4):
accept a candidate's (clamped) range when it fits, stop when the budget
is exhausted or the candidates are. Returns the newly accepted moments
in acceptance order. -/
def greedyTake (d : Duration) (mediaDuration : ℚ) :
    List CandidateMoment → List CandidateMoment → Nat → List CandidateMoment
  | _, [], _ => []
  | _, _ :: _, 0 => []
  | acc, c :: cs, Nat.succ k =>
      let c1 := clampMoment d mediaDuration c
      if fitsAccepted acc c1 then
        c1 :: greedyTake d mediaDuration (acc ++ [c1]) cs k
      else
        greedyTake d mediaDuration acc cs (Nat.succ k)

/-- Greedy acceptance with no budget: every non-overlapping candidate
that the greedy pass can accept. -/
def greedyAll (d : Duration) (mediaDuration : ℚ) :
    List CandidateMoment → List CandidateMoment → List CandidateMoment
  | _, [] => []
  | acc, c :: cs =>
      let c1 := clampMoment d mediaDuration c
      if fitsAccepted acc c1 then
        c1 :: greedyAll d mediaDuration (acc ++ [c1]) cs
      else
        greedyAll d mediaDuration acc cs

/-- Spec §4.4 `select`: sort, then greedily accept up to
`requestedCount` non-overlapping moments. -/
def select (cands : List CandidateMoment) (requestedCount : Nat)
    (d : Duration) (mediaDuration : ℚ) : List CandidateMoment :=
  greedyTake d mediaDuration [] (sortCandidates cands) requestedCount

/-- The non-overlapping candidates available to the greedy pass
(selection with no count limit). -/
def selectAll (cands : List CandidateMoment) (d : Duration)
    (mediaDuration : ℚ) : List CandidateMoment :=
  greedyAll d mediaDuration [] (sortCandidates cands)

/-! ### Selector lemmas -/

theorem overlapB_comm (a b : CandidateMoment) : overlapB a b = overlapB b a := by
  simp [overlapB, Bool.and_comm]

theorem clampMoment_viralScore (d : Duration) (dur : ℚ) (c : CandidateMoment) :
    (clampMoment d dur c).viralScore = c.viralScore := by
  cases d <;> rfl

theorem clampMoment_reason (d : Duration) (dur : ℚ) (c : CandidateMoment) :
    (clampMoment d dur c).reason = c.reason := by
  cases d <;> rfl

/-- The budgeted greedy pass returns exactly the first `n` moments of the
unbudgeted one. -/
theorem greedyTake_eq_take (d : Duration) (dur : ℚ) :
    ∀ (cs acc : List CandidateMoment) (n : Nat),
      greedyTake d dur acc cs n = (greedyAll d dur acc cs).take n
  | [], acc, n => by simp [greedyTake, greedyAll]
  | _ :: _, _, 0 => by simp [greedyTake]
  | c :: cs, acc, Nat.succ k => by
      by_cases h : fitsAccepted acc (clampMoment d dur c) = true
      · simp only [greedyTake, greedyAll, h, if_true,
          greedyTake_eq_take d dur cs _ k, List.take_succ_cons]
      · simp only [greedyTake, greedyAll, h, if_false,
          greedyTake_eq_take d dur cs acc (Nat.succ k), Bool.false_eq_true]

/-- Every moment the greedy pass accepts avoids every already-accepted
moment. -/
theorem greedyAll_no_overlap_acc (d : Duration) (dur : ℚ) :
    ∀ (cs acc : List CandidateMoment), ∀ a ∈ acc,
      ∀ b ∈ greedyAll d dur acc cs, overlapB a b = false
  | [], acc => by simp [greedyAll]
  | c :: cs, acc => by
      intro a ha b hb
      by_cases h : fitsAccepted acc (clampMoment d dur c) = true
      · simp only [greedyAll, h, if_true, List.mem_cons] at hb
        rcases hb with rfl | hb
        · have := (List.all_eq_true.mp h) a ha
          simpa using this
        · exact greedyAll_no_overlap_acc d dur cs (acc ++ [clampMoment d dur c])
            a (List.mem_append_left _ ha) b hb
      · simp only [greedyAll, h, if_false, Bool.false_eq_true] at hb
        exact greedyAll_no_overlap_acc d dur cs acc a ha b hb

/-- The unbudgeted greedy output is pairwise non-overlapping. -/
theorem greedyAll_pairwise (d : Duration) (dur : ℚ) :
    ∀ (cs acc : List CandidateMoment),
      (greedyAll d dur acc cs).Pairwise fun a b => overlapB a b = false
  | [], acc => by simp [greedyAll]
  | c :: cs, acc => by
      by_cases h : fitsAccepted acc (clampMoment d dur c) = true
      · simp only [greedyAll, h, if_true]
        refine List.Pairwise.cons ?_ (greedyAll_pairwise d dur cs _)
        intro b hb
        exact greedyAll_no_overlap_acc d dur cs (acc ++ [clampMoment d dur c])
          (clampMoment d dur c) (List.mem_append_right _ (List.mem_singleton.mpr rfl)) b hb
      · simp only [greedyAll, h, if_false, Bool.false_eq_true]
        exact greedyAll_pairwise d dur cs acc

theorem select_eq_take_selectAll (cands : List CandidateMoment) (n : Nat)
    (d : Duration) (dur : ℚ) :
    select cands n d dur = (selectAll cands d dur).take n := by
  unfold select selectAll
  exact greedyTake_eq_take d dur (sortCandidates cands) [] n

/-- Claim C1: for every run the set of SelectedMoments is mutually
non-overlapping, and its size equals the minimum of the requested clip
count and the number of non-overlapping candidates available to the
greedy pass; selection is total, so returning fewer moments than
requested is not an error. -/
theorem selected_moments_disjoint_and_count (cands : List CandidateMoment)
    (n : Nat) (d : Duration) (dur : ℚ) :
    (select cands n d dur).Pairwise
      (fun a b => overlapB a b = false ∧ overlapB b a = false) ∧
    (select cands n d dur).length = min n (selectAll cands d dur).length := by
  constructor
  · have hall : (selectAll cands d dur).Pairwise fun a b => overlapB a b = false :=
      greedyAll_pairwise d dur (sortCandidates cands) []
    have hsub : List.Sublist (select cands n d dur) (selectAll cands d dur) := by
      rw [select_eq_take_selectAll]; exact List.take_sublist _ _
    exact (hall.sublist hsub).imp fun h => ⟨h, (overlapB_comm _ _).trans h⟩
  · rw [select_eq_take_selectAll]
    simp

/-! ### Selector output order (spec §4.4 steps 1 and 5) -/

/-- The scores of the budgeted greedy output form a subsequence of the
scores of the candidate list it scans (clamping preserves scores). -/
theorem greedyTake_scores_sublist (d : Duration) (dur : ℚ) :
    ∀ (cs acc : List CandidateMoment) (n : Nat),
      List.Sublist ((greedyTake d dur acc cs n).map (fun c => c.viralScore))
        (cs.map fun c => c.viralScore)
  | [], _, _ => by simp [greedyTake]
  | _ :: _, _, 0 => by simp [greedyTake]
  | c :: cs, acc, Nat.succ k => by
      by_cases h : fitsAccepted acc (clampMoment d dur c) = true
      · simp only [greedyTake, h, if_true, List.map_cons, clampMoment_viralScore]
        exact List.Sublist.cons₂ _ (greedyTake_scores_sublist d dur cs _ k)
      · simp only [greedyTake, h, if_false, Bool.false_eq_true, List.map_cons]
        exact (greedyTake_scores_sublist d dur cs acc (Nat.succ k)).trans
          (List.sublist_cons_self _ _)

theorem sorted_scores_of_sorted_candBefore {l : List CandidateMoment}
    (h : l.Sorted candBefore) :
    (l.map fun c => c.viralScore).Sorted fun x y => y ≤ x := by
  rw [List.Sorted, List.pairwise_map]
  refine h.imp ?_
  intro a b hab
  rcases hab with hlt | ⟨heq, _⟩
  · exact le_of_lt hlt
  · exact le_of_eq heq.symm

/-- The Selector's output is in descending-score order. -/
theorem select_scores_sorted (cands : List CandidateMoment) (n : Nat)
    (d : Duration) (dur : ℚ) :
    ((select cands n d dur).map fun c => c.viralScore).Sorted fun x y => y ≤ x := by
  have hs : (sortCandidates cands).Sorted candBefore :=
    List.sorted_insertionSort candBefore cands
  exact (sorted_scores_of_sorted_candBefore hs).sublist
    (greedyTake_scores_sublist d dur (sortCandidates cands) [] n)

/-- Claim C2: the Selector is a deterministic function that sorts by
descending score (ties by earlier start) and its output preserves
descending-score order; and in the five-candidate scenario with scores
`[0.9, 0.8, 0.7, 0.6, 0.5]` where candidate 2 overlaps candidate 1,
candidate 4 overlaps candidate 1, and candidates 1, 3, 5 are mutually
non-overlapping, requesting 3 clips returns exactly candidates 1, 3, 5
in that score order. -/
theorem selector_deterministic_scenario :
    (∀ (cands : List CandidateMoment) (n : Nat) (d : Duration) (dur : ℚ),
      ((select cands n d dur).map fun c => c.viralScore).Sorted fun x y => y ≤ x) ∧
    (∀ (c1 c2 c3 c4 c5 : CandidateMoment) (dur : ℚ),
      c1.viralScore = 9/10 → c2.viralScore = 8/10 → c3.viralScore = 7/10 →
      c4.viralScore = 6/10 → c5.viralScore = 5/10 →
      overlapB c1 c2 = true → overlapB c1 c3 = false → overlapB c1 c4 = true →
      overlapB c1 c5 = false → overlapB c3 c5 = false →
      select [c1, c2, c3, c4, c5] 3 .auto dur = [c1, c3, c5]) := by
  refine ⟨select_scores_sorted, ?_⟩
  intro c1 c2 c3 c4 c5 dur h1 h2 h3 h4 h5 o12 o13 o14 o15 o35
  have lt21 : candBefore c1 c2 := Or.inl (by rw [h1, h2]; norm_num)
  have lt31 : candBefore c1 c3 := Or.inl (by rw [h1, h3]; norm_num)
  have lt41 : candBefore c1 c4 := Or.inl (by rw [h1, h4]; norm_num)
  have lt51 : candBefore c1 c5 := Or.inl (by rw [h1, h5]; norm_num)
  have lt32 : candBefore c2 c3 := Or.inl (by rw [h2, h3]; norm_num)
  have lt42 : candBefore c2 c4 := Or.inl (by rw [h2, h4]; norm_num)
  have lt52 : candBefore c2 c5 := Or.inl (by rw [h2, h5]; norm_num)
  have lt43 : candBefore c3 c4 := Or.inl (by rw [h3, h4]; norm_num)
  have lt53 : candBefore c3 c5 := Or.inl (by rw [h3, h5]; norm_num)
  have lt54 : candBefore c4 c5 := Or.inl (by rw [h4, h5]; norm_num)
  have hsorted : List.Sorted candBefore [c1, c2, c3, c4, c5] := by
    simp only [List.sorted_cons, List.mem_cons, List.not_mem_nil, or_false,
      List.sorted_nil, and_true, forall_eq_or_imp, forall_eq]
    exact ⟨⟨lt21, lt31, lt41, lt51⟩, ⟨lt32, lt42, lt52⟩, ⟨lt43, lt53⟩, lt54,
      fun _ h => h.elim⟩
  have hsort : sortCandidates [c1, c2, c3, c4, c5] = [c1, c2, c3, c4, c5] :=
    hsorted.insertionSort_eq
  unfold select
  rw [hsort]
  simp [greedyTake, clampMoment, fitsAccepted, o12, o13, o14, o15, o35]

/-- Concrete candidates realising the Scenario A configuration
(10-minute media, scores 0.9 … 0.5, only 1, 3, 5 mutually
non-overlapping). -/
def momA1 : CandidateMoment := ⟨0, 10, 9/10, "hook"⟩

def momA2 : CandidateMoment := ⟨5, 15, 8/10, "reveal"⟩

def momA3 : CandidateMoment := ⟨20, 30, 7/10, "punchline"⟩

def momA4 : CandidateMoment := ⟨8, 25, 6/10, "reaction"⟩

def momA5 : CandidateMoment := ⟨40, 50, 5/10, "quote"⟩

/-- Witness for claim C2 at the concrete Scenario A candidates. -/
theorem selector_deterministic_scenario_witness :
    overlapB momA1 momA2 = true ∧ overlapB momA1 momA3 = false ∧
    overlapB momA1 momA4 = true ∧ overlapB momA1 momA5 = false ∧
    overlapB momA3 momA5 = false ∧
    select [momA1, momA2, momA3, momA4, momA5] 3 .auto 600 =
      [momA1, momA3, momA5] :=
  ⟨by decide, by decide, by decide, by decide, by decide,
    selector_deterministic_scenario.2 momA1 momA2 momA3 momA4 momA5 600
      rfl rfl rfl rfl rfl (by decide) (by decide) (by decide) (by decide)
      (by decide)⟩

/-! ## Moment Detector

Modelled from the spec: §4.3 `detect(Transcript, mediaDuration,
requestedClipCount)`. The Moment Detector lives in the FastAPI backend,
which is not in the reviewed source tree; the definitions below follow
the spec's validation rule, heuristic fallback, and observability
requirement. -/

/-- Spec §4.3 validation: a usable candidate satisfies
`0 <= start < end <= mediaDuration` and `0.0 <= score <= 1.0`. -/
def isValidCandidate (mediaDuration : ℚ) (c : CandidateMoment) : Bool :=
  decide (0 ≤ c.startTime) && decide (c.startTime < c.endTime) &&
    decide (c.endTime ≤ mediaDuration) && decide (0 ≤ c.viralScore) &&
    decide (c.viralScore ≤ 1)

/-- Reason text carried by every heuristic-fallback moment, making the
fallback path observable (spec §4.3). -/
def heuristicReason : String := "Heuristic fallback: evenly spaced window"

/-- Window size for the heuristic fallback: the requested duration, or a
default 30 s for `auto`. -/
def windowLength (d : Duration) : ℚ :=
  match d with
  | .auto => 30
  | .fixed secs => (secs : ℚ)

/-- Modelled from the spec: §4.3 heuristic fallback — `requestedClipCount`
evenly spaced windows sized to the requested duration, clipped to the
media and dropped when empty (spec §8: "or fewer if media is shorter
than one requested-duration window"). -/
def heuristicCandidates (req : Nat) (d : Duration) (mediaDuration : ℚ) :
    List CandidateMoment :=
  ((List.range req).map fun i =>
    { startTime := (i : ℚ) * (mediaDuration / (req : ℚ)),
      endTime := min ((i : ℚ) * (mediaDuration / (req : ℚ)) + windowLength d)
        mediaDuration,
      viralScore := 1/2,
      reason := heuristicReason }).filter fun c =>
    decide (c.startTime < c.endTime)

/-- The engine-returned candidates that survive validation; `none` is an
unreachable engine. -/
def usableCandidates (engineOutput : Option (List CandidateMoment))
    (mediaDuration : ℚ) : List CandidateMoment :=
  (engineOutput.getD []).filter (isValidCandidate mediaDuration)

/-- Modelled from the spec: §4.3 `detect` — discard invalid candidates
(not fatal) and fall back to the deterministic heuristic whenever zero
usable candidates remain, including when the engine is unreachable. -/
def detect (engineOutput : Option (List CandidateMoment)) (mediaDuration : ℚ)
    (req : Nat) (d : Duration) : List CandidateMoment :=
  let usable := usableCandidates engineOutput mediaDuration
  if usable.isEmpty then heuristicCandidates req d mediaDuration else usable

/-! ## Pipeline Orchestrator

Modelled from the spec: §4.7 state machine and §7 propagation policy.
The orchestrator is backend code absent from the source tree; stage
outcomes are inputs of the run function. -/

/-- Spec §7 error taxonomy. -/
inductive ErrorCategory
  | sourceError
  | transcriptionError
  | detectionError
  | renderError
  | publishError
  | timedOut
  | cancelled
deriving DecidableEq

/-- Terminal outcome of a run: status, surviving clips, and the error
category when failed. -/
structure RunResult where
  status : RunStatus
  clips : List GeneratedClip
  category : Option ErrorCategory
deriving DecidableEq

/-- The clips that survived their per-clip render/publish fan-out. -/
def survivors (outcomes : List (Except ErrorCategory GeneratedClip)) :
    List GeneratedClip :=
  outcomes.filterMap fun o => o.toOption

/-- First per-clip error category, defaulting to `renderError`. -/
def firstFailure (outcomes : List (Except ErrorCategory GeneratedClip)) :
    ErrorCategory :=
  (outcomes.filterMap fun o =>
    match o with
    | .error e => some e
    | .ok _ => none).headD .renderError

/-- Modelled from the spec: §4.7/§7 fan-in — a run with at least one
surviving clip is `Completed` with the reduced list; zero survivors is
`Failed` with a category. -/
def finishRun (outcomes : List (Except ErrorCategory GeneratedClip)) :
    RunResult :=
  let s := survivors outcomes
  if s.isEmpty then ⟨.failed, [], some (firstFailure outcomes)⟩
  else ⟨.completed, s, none⟩

/-- Modelled from the spec: §4.7 orchestrator — Acquire and Transcribe
abort the run on error; Detect degrades to the heuristic; Select is
total; Render/Publish outcomes are per-clip and fan back in. -/
def runPipeline (acqOutcome transcribeOutcome : Except ErrorCategory Unit)
    (engineOutput : Option (List CandidateMoment)) (mediaDuration : ℚ)
    (settings : ClipSettings)
    (render : CandidateMoment → Except ErrorCategory GeneratedClip) :
    RunResult :=
  match acqOutcome with
  | .error e => ⟨.failed, [], some e⟩
  | .ok _ =>
    match transcribeOutcome with
    | .error e => ⟨.failed, [], some e⟩
    | .ok _ =>
      let cands := detect engineOutput mediaDuration settings.numberOfClips
        settings.duration
      let moments := select cands settings.numberOfClips settings.duration
        mediaDuration
      finishRun (moments.map render)

/-! ### Terminal-status lemmas -/

theorem finishRun_clips (outcomes : List (Except ErrorCategory GeneratedClip)) :
    (finishRun outcomes).clips = survivors outcomes := by
  unfold finishRun
  by_cases h : (survivors outcomes).isEmpty
  · simp only [h, if_true]
    exact (List.isEmpty_iff.mp h).symm
  · simp [h]

theorem finishRun_completed_iff
    (outcomes : List (Except ErrorCategory GeneratedClip)) :
    (finishRun outcomes).status = .completed ↔ survivors outcomes ≠ [] := by
  unfold finishRun
  by_cases h : (survivors outcomes).isEmpty
  · simp [h, List.isEmpty_iff.mp h]
  · simp [h, List.isEmpty_iff.not.mp h]

theorem finishRun_failed_iff
    (outcomes : List (Except ErrorCategory GeneratedClip)) :
    (finishRun outcomes).status = .failed ↔ survivors outcomes = [] := by
  unfold finishRun
  by_cases h : (survivors outcomes).isEmpty
  · simp [h, List.isEmpty_iff.mp h]
  · simp [h, List.isEmpty_iff.not.mp h]

theorem finishRun_category
    (outcomes : List (Except ErrorCategory GeneratedClip)) :
    (finishRun outcomes).status = .failed ↔
      (finishRun outcomes).category ≠ none := by
  unfold finishRun
  by_cases h : (survivors outcomes).isEmpty <;> simp [h]

/-- Claim C4: every run ends in exactly one of the two terminal
outcomes — `Completed` with at least one surviving clip, or `Failed`
with an error category; zero survivors after the per-clip render/publish
fan-out means `Failed` (never `Completed` with an empty list), and at
least one survivor means `Completed` with exactly the reduced clip
list. -/
theorem run_terminal_dichotomy
    (acqOutcome transcribeOutcome : Except ErrorCategory Unit)
    (engineOutput : Option (List CandidateMoment)) (mediaDuration : ℚ)
    (settings : ClipSettings)
    (render : CandidateMoment → Except ErrorCategory GeneratedClip) :
    (((runPipeline acqOutcome transcribeOutcome engineOutput mediaDuration
          settings render).status = .completed ∧
        (runPipeline acqOutcome transcribeOutcome engineOutput mediaDuration
          settings render).clips ≠ []) ∨
      ((runPipeline acqOutcome transcribeOutcome engineOutput mediaDuration
          settings render).status = .failed ∧
        (runPipeline acqOutcome transcribeOutcome engineOutput mediaDuration
          settings render).category ≠ none)) ∧
    (∀ outcomes : List (Except ErrorCategory GeneratedClip),
      (finishRun outcomes).clips = survivors outcomes ∧
      ((finishRun outcomes).status = .completed ↔ survivors outcomes ≠ []) ∧
      ((finishRun outcomes).status = .failed ↔ survivors outcomes = [])) := by
  constructor
  · have hfin : ∀ outcomes : List (Except ErrorCategory GeneratedClip),
        ((finishRun outcomes).status = .completed ∧
          (finishRun outcomes).clips ≠ []) ∨
        ((finishRun outcomes).status = .failed ∧
          (finishRun outcomes).category ≠ none) := by
      intro outcomes
      by_cases h : survivors outcomes = []
      · exact Or.inr ⟨(finishRun_failed_iff outcomes).mpr h,
          (finishRun_category outcomes).mp ((finishRun_failed_iff outcomes).mpr h)⟩
      · refine Or.inl ⟨(finishRun_completed_iff outcomes).mpr h, ?_⟩
        rw [finishRun_clips]; exact h
    cases acqOutcome with
    | error e => exact Or.inr ⟨rfl, by simp [runPipeline]⟩
    | ok u =>
      cases transcribeOutcome with
      | error e => exact Or.inr ⟨rfl, by simp [runPipeline]⟩
      | ok v => exact hfin _
  · intro outcomes
    exact ⟨finishRun_clips outcomes, finishRun_completed_iff outcomes,
      finishRun_failed_iff outcomes⟩

/-! ### Detector lemmas -/

theorem heuristicCandidates_reason (req : Nat) (d : Duration) (dur : ℚ) :
    ∀ c ∈ heuristicCandidates req d dur, c.reason = heuristicReason := by
  intro c hc
  unfold heuristicCandidates at hc
  obtain ⟨hm, _⟩ := List.mem_filter.mp hc
  obtain ⟨i, _, rfl⟩ := List.mem_map.mp hm
  rfl

theorem heuristicCandidates_ne_nil {req : Nat} {d : Duration} {dur : ℚ}
    (hreq : 0 < req) (hdur : 0 < dur) (hw : 0 < windowLength d) :
    heuristicCandidates req d dur ≠ [] := by
  unfold heuristicCandidates
  have h0 : 0 ∈ List.range req := List.mem_range.mpr hreq
  have hy := List.mem_map_of_mem
    (f := fun i : Nat =>
      ({ startTime := (i : ℚ) * (dur / (req : ℚ)),
         endTime := min ((i : ℚ) * (dur / (req : ℚ)) + windowLength d) dur,
         viralScore := 1/2,
         reason := heuristicReason } : CandidateMoment)) h0
  refine List.ne_nil_of_mem (List.mem_filter.mpr ⟨hy, ?_⟩)
  simp only [Nat.cast_zero, zero_mul, zero_add, decide_eq_true_eq]
  exact lt_min hw hdur

theorem greedyTake_mem (d : Duration) (dur : ℚ) :
    ∀ (cs acc : List CandidateMoment) (n : Nat) (m : CandidateMoment),
      m ∈ greedyTake d dur acc cs n → ∃ c0 ∈ cs, m = clampMoment d dur c0
  | [], _, _, m => by simp [greedyTake]
  | _ :: _, _, 0, m => by simp [greedyTake]
  | c :: cs, acc, Nat.succ k, m => by
      intro hm
      by_cases h : fitsAccepted acc (clampMoment d dur c) = true
      · simp only [greedyTake, h, if_true, List.mem_cons] at hm
        rcases hm with rfl | hm
        · exact ⟨c, List.mem_cons_self c cs, rfl⟩
        · obtain ⟨c0, hc0, rfl⟩ := greedyTake_mem d dur cs _ k m hm
          exact ⟨c0, List.mem_cons_of_mem c hc0, rfl⟩
      · simp only [greedyTake, h, if_false, Bool.false_eq_true] at hm
        obtain ⟨c0, hc0, rfl⟩ := greedyTake_mem d dur cs acc (Nat.succ k) m hm
        exact ⟨c0, List.mem_cons_of_mem c hc0, rfl⟩

theorem select_mem {cands : List CandidateMoment} {n : Nat} {d : Duration}
    {dur : ℚ} {m : CandidateMoment} (hm : m ∈ select cands n d dur) :
    ∃ c0 ∈ cands, m = clampMoment d dur c0 := by
  obtain ⟨c0, hc0, rfl⟩ :=
    greedyTake_mem d dur (sortCandidates cands) [] n m hm
  exact ⟨c0, (List.mem_insertionSort candBefore).mp hc0, rfl⟩

theorem select_ne_nil {cands : List CandidateMoment} {n : Nat}
    (d : Duration) (dur : ℚ) (hc : cands ≠ []) (hn : 0 < n) :
    select cands n d dur ≠ [] := by
  unfold select
  obtain ⟨k, rfl⟩ := Nat.exists_eq_succ_of_ne_zero (Nat.pos_iff_ne_zero.mp hn)
  cases hs : sortCandidates cands with
  | nil =>
      exfalso
      have := congrArg List.length hs
      simp only [sortCandidates, List.length_insertionSort, List.length_nil] at this
      exact hc (List.length_eq_zero.mp this)
  | cons c cs =>
      simp only [greedyTake, fitsAccepted, List.all_nil, if_true]
      exact List.cons_ne_nil _ _

theorem mem_survivors_of_ok {outcomes : List (Except ErrorCategory GeneratedClip)}
    {c : GeneratedClip} (h : Except.ok c ∈ outcomes) : c ∈ survivors outcomes :=
  List.mem_filterMap.mpr ⟨.ok c, h, rfl⟩

theorem ok_of_mem_survivors {outcomes : List (Except ErrorCategory GeneratedClip)}
    {c : GeneratedClip} (h : c ∈ survivors outcomes) : Except.ok c ∈ outcomes := by
  obtain ⟨o, ho, hoc⟩ := List.mem_filterMap.mp h
  cases o with
  | ok a =>
      obtain rfl : a = c := by simpa [Except.toOption] using hoc
      exact ho
  | error e => simp [Except.toOption] at hoc

/-- Claim C3: the Moment Detector discards (without failing) every
engine candidate violating `0 ≤ start < end ≤ mediaDuration` or
`0 ≤ score ≤ 1`; whenever zero usable candidates remain — including an
unreachable engine — it falls back to the deterministic heuristic of
evenly spaced windows, whose moments all carry the heuristic `reason`
marker, and the run still reaches `Completed` with every clip's reason
indicating heuristic origin. -/
theorem detector_validation_and_fallback
    (engineOutput : Option (List CandidateMoment)) (mediaDuration : ℚ)
    (req : Nat) (d : Duration) :
    (∀ c ∈ detect engineOutput mediaDuration req d,
        isValidCandidate mediaDuration c = true ∨ c.reason = heuristicReason) ∧
    (usableCandidates engineOutput mediaDuration = [] →
        detect engineOutput mediaDuration req d =
          heuristicCandidates req d mediaDuration) ∧
    (usableCandidates engineOutput mediaDuration ≠ [] →
        detect engineOutput mediaDuration req d =
          usableCandidates engineOutput mediaDuration) ∧
    (∀ c ∈ heuristicCandidates req d mediaDuration,
        c.reason = heuristicReason) ∧
    detect none mediaDuration req d = heuristicCandidates req d mediaDuration ∧
    (∀ (settings : ClipSettings)
        (render : CandidateMoment → Except ErrorCategory GeneratedClip),
      settings.numberOfClips = req → settings.duration = d →
      0 < mediaDuration → 0 < req → 0 < windowLength d →
      (∀ m, ∃ clip, render m = .ok clip ∧
          clip.viralReason = some m.reason) →
      (runPipeline (.ok ()) (.ok ()) none mediaDuration settings
          render).status = .completed ∧
      ∀ clip ∈ (runPipeline (.ok ()) (.ok ()) none mediaDuration settings
          render).clips, clip.viralReason = some heuristicReason) := by
  refine ⟨?_, ?_, ?_, heuristicCandidates_reason req d mediaDuration, ?_, ?_⟩
  · intro c hc
    unfold detect at hc
    by_cases h : (usableCandidates engineOutput mediaDuration).isEmpty
    · simp only [h, if_true] at hc
      exact Or.inr (heuristicCandidates_reason req d mediaDuration c hc)
    · simp only [h, if_false, Bool.false_eq_true] at hc
      exact Or.inl (List.of_mem_filter hc)
  · intro h
    unfold detect
    simp [h]
  · intro h
    unfold detect
    simp [List.isEmpty_iff.not.mpr h]
  · unfold detect usableCandidates
    simp
  · intro settings render hreq hd hdur hpos hw hr
    subst hreq hd
    have hdet : detect none mediaDuration settings.numberOfClips
        settings.duration =
        heuristicCandidates settings.numberOfClips settings.duration
          mediaDuration := by
      unfold detect usableCandidates; simp
    have hcands : heuristicCandidates settings.numberOfClips settings.duration
        mediaDuration ≠ [] := heuristicCandidates_ne_nil hpos hdur hw
    have hmoments : select (detect none mediaDuration settings.numberOfClips
        settings.duration) settings.numberOfClips settings.duration
        mediaDuration ≠ [] := by
      rw [hdet]
      exact select_ne_nil _ _ hcands hpos
    have hrun : runPipeline (.ok ()) (.ok ()) none mediaDuration settings
        render =
        finishRun ((select (detect none mediaDuration settings.numberOfClips
          settings.duration) settings.numberOfClips settings.duration
          mediaDuration).map render) := rfl
    set moments := select (detect none mediaDuration settings.numberOfClips
      settings.duration) settings.numberOfClips settings.duration
      mediaDuration with hmdef
    have hsurv : survivors (moments.map render) ≠ [] := by
      obtain ⟨m, hm⟩ := List.exists_mem_of_ne_nil moments hmoments
      obtain ⟨clip, hclip, _⟩ := hr m
      have : Except.ok clip ∈ moments.map render := by
        rw [← hclip]
        exact List.mem_map_of_mem render hm
      exact List.ne_nil_of_mem (mem_survivors_of_ok this)
    constructor
    · rw [hrun]
      exact (finishRun_completed_iff _).mpr hsurv
    · intro clip hclip
      rw [hrun, finishRun_clips] at hclip
      have hok := ok_of_mem_survivors hclip
      obtain ⟨m, hm, hmr⟩ := List.mem_map.mp hok
      obtain ⟨clip2, hc2, hc2r⟩ := hr m
      have : clip2 = clip := by
        rw [hc2] at hmr
        exact Except.ok.inj hmr
      subst this
      obtain ⟨c0, hc0, rfl⟩ := select_mem (hmdef ▸ hm)
      rw [hc2r, clampMoment_reason]
      rw [hdet] at hc0
      rw [heuristicCandidates_reason _ _ _ c0 hc0]

/-- Settings matching Scenario B: 3 clips, auto duration, 9:16,
subtitles on, minimal template, AI detection. -/
def demoSettings : ClipSettings := ⟨.auto, .r9x16, 3, true, "minimal", .ai⟩

/-- A per-clip renderer model that always succeeds and copies the
moment's score/reason/start/end into the clip record (spec §3
**GeneratedClip**). -/
def okRender (m : CandidateMoment) : Except ErrorCategory GeneratedClip :=
  .ok { id := "clip", title := "Clip", thumbnail := "thumb",
        clipLength := "0:30", aspect := "9:16", template := "minimal",
        hasSubtitles := true, videoUrl := "url", downloadUrl := "url",
        createdAt := "now", viralReason := some m.reason,
        viralScore := some m.viralScore, startTime := some m.startTime,
        endTime := some m.endTime }

/-- Witness for claim C3: an unreachable engine on 10-minute media with
3 requested clips still completes, and every clip is marked with the
heuristic reason. -/
theorem detector_validation_and_fallback_witness :
    (0 : ℚ) < 600 ∧ 0 < 3 ∧ (0 : ℚ) < windowLength .auto ∧
    (runPipeline (.ok ()) (.ok ()) none 600 demoSettings
        okRender).status = .completed ∧
    ∀ clip ∈ (runPipeline (.ok ()) (.ok ()) none 600 demoSettings
        okRender).clips, clip.viralReason = some heuristicReason := by
  have h := (detector_validation_and_fallback none 600 3 .auto).2.2.2.2.2
    demoSettings okRender rfl rfl (by norm_num) (by norm_num)
    (by norm_num [windowLength]) (fun m => ⟨_, rfl, rfl⟩)
  exact ⟨by norm_num, by norm_num, by norm_num [windowLength], h.1, h.2⟩

/-- Witness for claim C1 at the Scenario A candidate set. -/
theorem selected_moments_disjoint_and_count_witness :
    (select [momA1, momA2, momA3, momA4, momA5] 3 .auto 600).Pairwise
      (fun a b => overlapB a b = false ∧ overlapB b a = false) ∧
    (select [momA1, momA2, momA3, momA4, momA5] 3 .auto 600).length =
      min 3 (selectAll [momA1, momA2, momA3, momA4, momA5] .auto 600).length :=
  selected_moments_disjoint_and_count [momA1, momA2, momA3, momA4, momA5]
    3 .auto 600

/-- Witness for claim C4 at a concrete run whose three renders all
fail (Scenario D). -/
theorem run_terminal_dichotomy_witness :
    (((runPipeline (.ok ()) (.ok ()) none 600 demoSettings
          (fun _ => .error .renderError)).status = .completed ∧
        (runPipeline (.ok ()) (.ok ()) none 600 demoSettings
          (fun _ => .error .renderError)).clips ≠ []) ∨
      ((runPipeline (.ok ()) (.ok ()) none 600 demoSettings
          (fun _ => .error .renderError)).status = .failed ∧
        (runPipeline (.ok ()) (.ok ()) none 600 demoSettings
          (fun _ => .error .renderError)).category ≠ none)) ∧
    (∀ outcomes : List (Except ErrorCategory GeneratedClip),
      (finishRun outcomes).clips = survivors outcomes ∧
      ((finishRun outcomes).status = .completed ↔ survivors outcomes ≠ []) ∧
      ((finishRun outcomes).status = .failed ↔ survivors outcomes = [])) :=
  run_terminal_dichotomy (.ok ()) (.ok ()) none 600 demoSettings
    (fun _ => .error .renderError)

/-! ## Clip Renderer aspect transform

Modelled from the spec: §4.5 — "Aspect-ratio transform is always
letterbox/pad — source content is never cropped, regardless of requested
ratio". The renderer is backend code absent from the source tree; the
frontend asserts the same invariant ("Aspect ratio uses letterboxing —
no face or content is ever cropped out", `object-contain` playback). -/

/-- Output canvas width for each aspect choice (1080-based shorts
canvases). -/
def canvasW (a : Aspect) : ℚ :=
  match a with
  | .r9x16 => 1080
  | .r1x1 => 1080
  | .r4x5 => 1080
  | .r16x9 => 1920

/-- Output canvas height for each aspect choice. -/
def canvasH (a : Aspect) : ℚ :=
  match a with
  | .r9x16 => 1920
  | .r1x1 => 1080
  | .r4x5 => 1350
  | .r16x9 => 1080

/-- Geometry of a letterboxed frame: the uniformly scaled source frame
and the symmetric padding placing it on the output canvas. -/
structure Placement where
  scaledW : ℚ
  scaledH : ℚ
  padX : ℚ
  padY : ℚ
  outW : ℚ
  outH : ℚ
deriving DecidableEq

/-- Modelled from the spec: §4.5 letterbox transform — scale the whole
source frame uniformly to fit inside the target canvas and centre it
with padding, never cropping. -/
def letterbox (srcW srcH : ℚ) (a : Aspect) : Placement :=
  let s := min (canvasW a / srcW) (canvasH a / srcH)
  ⟨srcW * s, srcH * s, (canvasW a - srcW * s) / 2, (canvasH a - srcH * s) / 2,
    canvasW a, canvasH a⟩

/-- Claim C5: for every source frame and requested aspect ratio the
transform is letterbox/pad only — the padding is non-negative (the whole
scaled frame lies inside the canvas, nothing is cropped), the padding
and scaled frame exactly tile the canvas, the frame keeps its aspect
ratio (no distortion), and the scaled frame is non-degenerate. -/
theorem letterbox_never_crops (srcW srcH : ℚ) (a : Aspect)
    (hw : 0 < srcW) (hh : 0 < srcH) :
    0 ≤ (letterbox srcW srcH a).padX ∧
    0 ≤ (letterbox srcW srcH a).padY ∧
    (letterbox srcW srcH a).padX * 2 + (letterbox srcW srcH a).scaledW =
      (letterbox srcW srcH a).outW ∧
    (letterbox srcW srcH a).padY * 2 + (letterbox srcW srcH a).scaledH =
      (letterbox srcW srcH a).outH ∧
    (letterbox srcW srcH a).scaledW * srcH =
      (letterbox srcW srcH a).scaledH * srcW ∧
    0 < (letterbox srcW srcH a).scaledW ∧
    0 < (letterbox srcW srcH a).scaledH := by
  have htw : 0 < canvasW a := by cases a <;> norm_num [canvasW]
  have hth : 0 < canvasH a := by cases a <;> norm_num [canvasH]
  simp only [letterbox]
  set s := min (canvasW a / srcW) (canvasH a / srcH) with hsdef
  have hspos : 0 < s := lt_min (div_pos htw hw) (div_pos hth hh)
  have h1 : srcW * s ≤ canvasW a := by
    have h := min_le_left (canvasW a / srcW) (canvasH a / srcH)
    rw [← hsdef, le_div_iff₀ hw] at h
    linarith
  have h2 : srcH * s ≤ canvasH a := by
    have h := min_le_right (canvasW a / srcW) (canvasH a / srcH)
    rw [← hsdef, le_div_iff₀ hh] at h
    linarith
  refine ⟨by linarith, by linarith, by ring, by ring, by ring,
    mul_pos hw hspos, mul_pos hh hspos⟩

/-- Witness for claim C5 at a 1920×1080 source frame letterboxed to
9:16. -/
theorem letterbox_never_crops_witness :
    (0 : ℚ) < 1920 ∧ (0 : ℚ) < 1080 ∧
    0 ≤ (letterbox 1920 1080 .r9x16).padX ∧
    0 ≤ (letterbox 1920 1080 .r9x16).padY ∧
    (letterbox 1920 1080 .r9x16).padX * 2 +
        (letterbox 1920 1080 .r9x16).scaledW =
      (letterbox 1920 1080 .r9x16).outW := by
  have h := letterbox_never_crops 1920 1080 .r9x16 (by norm_num) (by norm_num)
  exact ⟨by norm_num, by norm_num, h.1, h.2.1, h.2.2.1⟩

/-! ## Dashboard progress updater

From `handleGenerate` in the Dashboard component
(`src/src/types/index.ts`): the 500 ms interval callback and the
completed-response handler. -/

/-- One tick of the progress interval:
`if (prev >= 97) return 97; if (prev >= 85 && tickCount % 8 !== 0)
return prev; return Math.min(prev + 1, 97);`. -/
def progressTick (tickCount prev : Nat) : Nat :=
  if 97 ≤ prev then 97
  else if 85 ≤ prev ∧ tickCount % 8 ≠ 0 then prev
  else min (prev + 1) 97

/-- Progress assignment when the generate response arrives:
`setProgress(100)` is executed only under `data.status === 'completed'`,
otherwise progress keeps its previous value. -/
def applyResponse (status : String) (prev : Nat) : Nat :=
  if status = "completed" then 100 else prev

/-- Claim C6: each tick of the progress updater never decreases the
reported percentage (from any in-range previous value) and never exceeds
97; a value of 100 is assigned exactly when a completed response is
received. -/
theorem progress_monotonic_bounded (tickCount prev : Nat) :
    (prev ≤ 97 → prev ≤ progressTick tickCount prev) ∧
    progressTick tickCount prev ≤ 97 ∧
    ∀ (status : String) (p : Nat), p ≤ 97 →
      (applyResponse status p = 100 ↔ status = "completed") := by
  refine ⟨?_, ?_, ?_⟩
  · intro hp
    unfold progressTick
    split
    · omega
    · split
      · exact le_refl prev
      · omega
  · unfold progressTick
    split
    · omega
    · split
      · omega
      · omega
  · intro status p hp
    by_cases h : status = "completed" <;> simp [applyResponse, h]
    omega

/-- Witness for claim C6 in the slow band (prev = 85, tick 9 — held) and
at the completed response. -/
theorem progress_monotonic_bounded_witness :
    85 ≤ progressTick 9 85 ∧ progressTick 9 85 ≤ 97 ∧
    (applyResponse "completed" 90 = 100 ↔ "completed" = "completed") :=
  ⟨(progress_monotonic_bounded 9 85).1 (by decide),
    (progress_monotonic_bounded 9 85).2.1,
    (progress_monotonic_bounded 9 85).2.2 "completed" 90 (by decide)⟩

/-! ## Run timeout ceiling -/

/-- From `handleGenerate`:
`setTimeout(() => controller.abort(), 15 * 60 * 1000)` — the request is
aborted 15 minutes after the generate call. -/
def generateTimeoutMs : Nat := 15 * 60 * 1000

/-- Modelled from the spec: §4.7 timeout — a run exceeding the ceiling
is aborted as `Failed` with `Timeout` and its scratch MediaAsset is
removed (second component: scratch removed). The orchestrator is backend
code absent from the source tree. -/
def runWithCeiling (elapsedMs ceilingMs : Nat) (normal : RunResult)
    (scratchRemovedNormal : Bool) : RunResult × Bool :=
  if ceilingMs < elapsedMs then (⟨.failed, [], some .timedOut⟩, true)
  else (normal, scratchRemovedNormal)

/-- Claim C7: the run is bounded by a tens-of-minutes ceiling — 15
minutes (900 000 ms) from the generate call — and a run exceeding it is
aborted: it terminates `Failed` with category `Timeout` (never the
normal outcome) and the scratch MediaAsset is removed. -/
theorem run_timeout_ceiling :
    generateTimeoutMs = 900000 ∧
    10 * 60 * 1000 ≤ generateTimeoutMs ∧ generateTimeoutMs < 100 * 60 * 1000 ∧
    ∀ (elapsedMs : Nat) (normal : RunResult) (scratch : Bool),
      generateTimeoutMs < elapsedMs →
      runWithCeiling elapsedMs generateTimeoutMs normal scratch =
        (⟨.failed, [], some .timedOut⟩, true) := by
  refine ⟨rfl, by norm_num [generateTimeoutMs], by norm_num [generateTimeoutMs], ?_⟩
  intro elapsedMs normal scratch h
  unfold runWithCeiling
  rw [if_pos h]

/-- Witness for claim C7: a run at 16 minutes exceeds the ceiling and is
aborted with `Timeout`, scratch removed. -/
theorem run_timeout_ceiling_witness :
    generateTimeoutMs < 16 * 60 * 1000 ∧
    runWithCeiling (16 * 60 * 1000) generateTimeoutMs
        ⟨.completed, [], none⟩ false =
      (⟨.failed, [], some .timedOut⟩, true) :=
  ⟨by norm_num [generateTimeoutMs],
    run_timeout_ceiling.2.2.2 (16 * 60 * 1000) ⟨.completed, [], none⟩ false
      (by norm_num [generateTimeoutMs])⟩

/-! ## Dashboard settings state machine (constructible GenerationRequests)

From the Dashboard component in `src/src/types/index.ts`: the settings
state, its initial value, and the UI actions that can change it — the
duration buttons `['auto', 15, 30, 45, 60]`, the range slider
`min={5} max={120}` shown when duration is not auto, the aspect-ratio
buttons (the four `ASPECT_RATIOS`), the clip-count buttons
`[1, 2, 3, 5, 10]`, the subtitles toggle and the template picker.
`handleGenerate` sends `duration === 'auto' ? 'auto' :
String(customDuration)`. -/

/-- Dashboard state: `settings` plus `customDuration`. -/
structure DashState where
  duration : Duration
  aspect : Aspect
  numberOfClips : Nat
  generateSubtitles : Bool
  template : String
  customDuration : Nat
deriving DecidableEq

/-- Initial Dashboard state: `{duration:'auto', aspectRatio:'9:16',
numberOfClips:3, generateSubtitles:true, template:'minimal'}` with
`customDuration = 30`. -/
def initialDash : DashState := ⟨.auto, .r9x16, 3, true, "minimal", 30⟩

/-- A user interaction with the settings panel. -/
inductive DashAction
  | pickDuration (d : Duration)
  | slideDuration (v : Nat)
  | pickAspect (a : Aspect)
  | pickClips (n : Nat)
  | toggleSubtitles
  | pickTemplate (t : String)
deriving DecidableEq

/-- State update for each interaction, mirroring the `onClick`/`onChange`
handlers: a numeric duration button also sets `customDuration`; the
slider sets both `customDuration` and `duration`. -/
def applyDash (s : DashState) : DashAction → DashState
  | .pickDuration .auto => { s with duration := .auto }
  | .pickDuration (.fixed n) => { s with duration := .fixed n, customDuration := n }
  | .slideDuration v => { s with customDuration := v, duration := .fixed v }
  | .pickAspect a => { s with aspect := a }
  | .pickClips n => { s with numberOfClips := n }
  | .toggleSubtitles => { s with generateSubtitles := !s.generateSubtitles }
  | .pickTemplate t => { s with template := t }

/-- The interactions the rendered UI can produce: duration buttons offer
only `auto, 15, 30, 45, 60`; the range input is bounded to `[5, 120]`;
clip-count buttons offer only `1, 2, 3, 5, 10`. -/
def validAction : DashAction → Prop
  | .pickDuration .auto => True
  | .pickDuration (.fixed n) => n = 15 ∨ n = 30 ∨ n = 45 ∨ n = 60
  | .slideDuration v => 5 ≤ v ∧ v ≤ 120
  | .pickClips n => n = 1 ∨ n = 2 ∨ n = 3 ∨ n = 5 ∨ n = 10
  | _ => True

/-- The request `handleGenerate` builds from the state (`clipSettings`):
duration is `'auto'` or the current `customDuration`. -/
def requestOf (s : DashState) : ClipSettings :=
  { duration := match s.duration with
      | .auto => .auto
      | .fixed _ => .fixed s.customDuration,
    aspect := s.aspect,
    numberOfClips := s.numberOfClips,
    generateSubtitles := s.generateSubtitles,
    template := s.template,
    detectionMethod := .ai }

/-- State invariant maintained by every valid interaction. -/
def dashInvariant (s : DashState) : Prop :=
  1 ≤ s.numberOfClips ∧ s.numberOfClips ≤ 10 ∧
    5 ≤ s.customDuration ∧ s.customDuration ≤ 120

theorem dashInvariant_initial : dashInvariant initialDash := by
  refine ⟨?_, ?_, ?_, ?_⟩ <;> norm_num [initialDash]

theorem dashInvariant_step {s : DashState} {a : DashAction}
    (hs : dashInvariant s) (ha : validAction a) :
    dashInvariant (applyDash s a) := by
  obtain ⟨h1, h2, h3, h4⟩ := hs
  cases a with
  | pickDuration d =>
      cases d with
      | auto => exact ⟨h1, h2, h3, h4⟩
      | fixed n =>
          rcases ha with rfl | rfl | rfl | rfl <;>
            exact ⟨h1, h2, by norm_num [applyDash], by norm_num [applyDash]⟩
  | slideDuration v => exact ⟨h1, h2, ha.1, ha.2⟩
  | pickAspect a2 => exact ⟨h1, h2, h3, h4⟩
  | pickClips n =>
      rcases ha with rfl | rfl | rfl | rfl | rfl <;>
        exact ⟨by norm_num [applyDash], by norm_num [applyDash], h3, h4⟩
  | toggleSubtitles => exact ⟨h1, h2, h3, h4⟩
  | pickTemplate t => exact ⟨h1, h2, h3, h4⟩

theorem dashInvariant_reachable (acts : List DashAction)
    (hv : ∀ a ∈ acts, validAction a) :
    dashInvariant (acts.foldl applyDash initialDash) := by
  suffices h : ∀ (l : List DashAction) (s : DashState), dashInvariant s →
      (∀ a ∈ l, validAction a) → dashInvariant (l.foldl applyDash s) by
    exact h acts initialDash dashInvariant_initial hv
  intro l
  induction l with
  | nil => intro s hs _; exact hs
  | cons a t ih =>
      intro s hs hl
      exact ih (applyDash s a)
        (dashInvariant_step hs (hl a (List.mem_cons_self a t)))
        fun b hb => hl b (List.mem_cons_of_mem a hb)

/-- Claim C8: every GenerationRequest constructible through the
Dashboard UI has a clip count between 1 and 10, a duration that is
either `auto` or a fixed value between 5 and 120 seconds, and an aspect
ratio drawn from exactly the four-member enum. -/
theorem request_bounds (acts : List DashAction)
    (hv : ∀ a ∈ acts, validAction a) :
    1 ≤ (requestOf (acts.foldl applyDash initialDash)).numberOfClips ∧
    (requestOf (acts.foldl applyDash initialDash)).numberOfClips ≤ 10 ∧
    ((requestOf (acts.foldl applyDash initialDash)).duration = .auto ∨
      ∃ v : Nat, (requestOf (acts.foldl applyDash initialDash)).duration =
          .fixed v ∧ 5 ≤ v ∧ v ≤ 120) ∧
    ((requestOf (acts.foldl applyDash initialDash)).aspect = .r9x16 ∨
      (requestOf (acts.foldl applyDash initialDash)).aspect = .r1x1 ∨
      (requestOf (acts.foldl applyDash initialDash)).aspect = .r4x5 ∨
      (requestOf (acts.foldl applyDash initialDash)).aspect = .r16x9) := by
  obtain ⟨h1, h2, h3, h4⟩ := dashInvariant_reachable acts hv
  set s := acts.foldl applyDash initialDash with hsdef
  refine ⟨h1, h2, ?_, ?_⟩
  · cases hd : s.duration with
    | auto => left; simp [requestOf, hd]
    | fixed n => right; exact ⟨s.customDuration, by simp [requestOf, hd], h3, h4⟩
  · cases ha : s.aspect with
    | r9x16 => exact Or.inl (by simp [requestOf, ha])
    | r1x1 => exact Or.inr (Or.inl (by simp [requestOf, ha]))
    | r4x5 => exact Or.inr (Or.inr (Or.inl (by simp [requestOf, ha])))
    | r16x9 => exact Or.inr (Or.inr (Or.inr (by simp [requestOf, ha])))

/-- Witness for claim C8: a concrete interaction trace — pick 45 s,
slide to 90 s, pick 1:1, pick 10 clips, toggle subtitles. -/
theorem request_bounds_witness :
    (∀ a ∈ [DashAction.pickDuration (.fixed 45), DashAction.slideDuration 90,
        DashAction.pickAspect .r1x1, DashAction.pickClips 10,
        DashAction.toggleSubtitles], validAction a) ∧
    1 ≤ (requestOf ([DashAction.pickDuration (.fixed 45),
        DashAction.slideDuration 90, DashAction.pickAspect .r1x1,
        DashAction.pickClips 10,
        DashAction.toggleSubtitles].foldl applyDash
          initialDash)).numberOfClips ∧
    (requestOf ([DashAction.pickDuration (.fixed 45),
        DashAction.slideDuration 90, DashAction.pickAspect .r1x1,
        DashAction.pickClips 10,
        DashAction.toggleSubtitles].foldl applyDash
          initialDash)).numberOfClips ≤ 10 := by
  have hv : ∀ a ∈ [DashAction.pickDuration (.fixed 45),
      DashAction.slideDuration 90, DashAction.pickAspect .r1x1,
      DashAction.pickClips 10, DashAction.toggleSubtitles], validAction a := by
    intro a ha
    fin_cases ha <;> simp [validAction]
  have h := request_bounds [DashAction.pickDuration (.fixed 45),
    DashAction.slideDuration 90, DashAction.pickAspect .r1x1,
    DashAction.pickClips 10, DashAction.toggleSubtitles] hv
  exact ⟨hv, h.1, h.2.1⟩

/-! ## History trash retention (from `src/src/pages/History.tsx`) -/

/-- One day in milliseconds (`24 * 60 * 60 * 1000`). -/
def dayMs : ℤ := 24 * 60 * 60 * 1000

/-- `daysUntilPurge` from History.tsx: `purgeTime = deletedAt +
10*24*60*60*1000; Math.max(0, Math.ceil((purgeTime - now) / day))`,
with timestamps in epoch milliseconds. -/
def daysUntilPurge (deletedAtMs nowMs : ℤ) : ℤ :=
  let purgeTime := deletedAtMs + 10 * dayMs
  max 0 ⌈((purgeTime - nowMs : ℤ) : ℚ) / (dayMs : ℚ)⌉

/-- Claim C9: the retention window is exactly 10 days, the days-left
value is never negative, and it reaches 0 exactly once 10 days have
elapsed since deletion. -/
theorem days_until_purge_bounds (deletedAtMs nowMs : ℤ) :
    dayMs = 24 * 60 * 60 * 1000 ∧
    0 ≤ daysUntilPurge deletedAtMs nowMs ∧
    (daysUntilPurge deletedAtMs nowMs = 0 ↔
      deletedAtMs + 10 * dayMs ≤ nowMs) := by
  refine ⟨rfl, le_max_left 0 _, ?_⟩
  unfold daysUntilPurge
  rw [max_eq_left_iff, Int.ceil_le]
  have hday : (0 : ℚ) < (dayMs : ℚ) := by norm_num [dayMs]
  rw [div_le_iff₀ hday]
  push_cast
  rw [zero_mul, sub_nonpos]
  exact_mod_cast Iff.rfl

/-- Witness for claim C9 at deletion time 0 and now = 10 days later. -/
theorem days_until_purge_bounds_witness :
    0 ≤ daysUntilPurge 0 (10 * dayMs) ∧
    (daysUntilPurge 0 (10 * dayMs) = 0 ↔ 0 + 10 * dayMs ≤ 10 * dayMs) :=
  ⟨(days_until_purge_bounds 0 (10 * dayMs)).2.1,
    (days_until_purge_bounds 0 (10 * dayMs)).2.2⟩

/-! ## History soft delete / restore (from `src/src/pages/History.tsx`) -/

/-- The History page's two lists: `activeItems` and `trashItems`. -/
structure HistoryState where
  active : List HistoryItem
  trash : List HistoryItem
deriving DecidableEq

/-- `handleSoftDelete`: find the item in `activeItems`, remove every
item with that id from `activeItems`, and prepend the item with
`deletedAt` set to the current timestamp onto `trashItems`. -/
def softDelete (id ts : String) (s : HistoryState) : HistoryState :=
  match s.active.find? (fun i => i.id == id) with
  | none => s
  | some item =>
      ⟨s.active.filter (fun i => !(i.id == id)),
        { item with deletedAt := some ts } :: s.trash⟩

/-- `handleRestore`: find the item in `trashItems`, prepend it with
`deletedAt` cleared (`undefined`) onto `activeItems`, and remove every
item with that id from `trashItems`. -/
def restore (id : String) (s : HistoryState) : HistoryState :=
  match s.trash.find? (fun i => i.id == id) with
  | none => s
  | some item =>
      ⟨{ item with deletedAt := none } :: s.active,
        s.trash.filter (fun i => !(i.id == id))⟩

/-- Item identity disregarding the `deletedAt` bookkeeping field. -/
def clearDeleted (i : HistoryItem) : HistoryItem := { i with deletedAt := none }

theorem softDelete_eq_of_find (ts : String) {s : HistoryState} {id : String}
    {item : HistoryItem}
    (h : s.active.find? (fun i => i.id == id) = some item) :
    softDelete id ts s =
      ⟨s.active.filter (fun i => !(i.id == id)),
        { item with deletedAt := some ts } :: s.trash⟩ := by
  unfold softDelete; rw [h]

theorem restore_eq_of_find {s : HistoryState} {id : String}
    (item : HistoryItem)
    (h : s.trash.find? (fun i => i.id == id) = some item) :
    restore id s =
      ⟨{ item with deletedAt := none } :: s.active,
        s.trash.filter (fun i => !(i.id == id))⟩ := by
  unfold restore; rw [h]

/-- A list with unique ids is a permutation of any member consed onto
the list minus that member's id. -/
theorem perm_cons_filter_of_mem :
    ∀ (l : List HistoryItem) (x : HistoryItem) (k : String),
      x ∈ l → x.id = k → (l.map (fun i => i.id)).Nodup →
      List.Perm l (x :: l.filter fun i => !(i.id == k))
  | [], x, k => by simp
  | b :: t, x, k => by
      intro hx hk hnd
      rw [List.map_cons, List.nodup_cons] at hnd
      rcases List.mem_cons.mp hx with rfl | hxt
      · rw [List.filter_cons_of_neg (by simp [hk])]
        have ht : t.filter (fun i => !(i.id == k)) = t := by
          refine List.filter_eq_self.mpr fun j hj => ?_
          have hne : j.id ≠ k := by
            intro he
            exact hnd.1 (hk ▸ he ▸ List.mem_map_of_mem (fun i => i.id) hj)
          simpa using hne
        rw [ht]
      · have hbk : b.id ≠ k := by
          intro he
          exact hnd.1 (by
            rw [he, ← hk]
            exact List.mem_map_of_mem (fun i => i.id) hxt)
        rw [List.filter_cons_of_pos (by simpa using hbk)]
        have ih := perm_cons_filter_of_mem t x k hxt hk hnd.2
        exact (ih.cons b).trans (List.Perm.swap x b _)

/-- Claim C10: soft delete followed by restore is a round trip on the
history lists — soft-deleting an active item removes its id from the
active list and puts the item, with `deletedAt` stamped and every other
field unchanged, at the head of the trash; restoring it empties that
trash entry back into the active list with `deletedAt` cleared and all
other fields equal to the original; each step preserves the combined
membership of active and trash up to the `deletedAt` bookkeeping field. -/
theorem soft_delete_restore_round_trip (s : HistoryState) (id ts : String)
    (item : HistoryItem)
    (hfind : s.active.find? (fun i => i.id == id) = some item)
    (hnodup : (s.active.map (fun i => i.id)).Nodup)
    (htrash : ∀ j ∈ s.trash, j.id ≠ id)
    (hdel : item.deletedAt = none) :
    (∀ j ∈ (softDelete id ts s).active, j.id ≠ id) ∧
    ({ item with deletedAt := some ts } : HistoryItem) ∈
      (softDelete id ts s).trash ∧
    clearDeleted { item with deletedAt := some ts } = clearDeleted item ∧
    List.Perm
      (((softDelete id ts s).active ++ (softDelete id ts s).trash).map
        clearDeleted)
      ((s.active ++ s.trash).map clearDeleted) ∧
    (restore id (softDelete id ts s)).trash = s.trash ∧
    List.Perm (restore id (softDelete id ts s)).active s.active ∧
    item ∈ (restore id (softDelete id ts s)).active := by
  have hpid : item.id = id := by
    have h := List.find?_some hfind
    simpa using h
  have hmem : item ∈ s.active := List.mem_of_find?_eq_some hfind
  have hs1 := softDelete_eq_of_find ts hfind
  have hitemT : ({ item with deletedAt := some ts } : HistoryItem).id = id := hpid
  have hback : ({ ({ item with deletedAt := some ts } : HistoryItem) with
      deletedAt := none } : HistoryItem) = item := by
    obtain ⟨iid, ist, isn, isth, icl, ise, ica, istat, ida⟩ := item
    subst hdel
    rfl
  have hperm1 : List.Perm s.active
      (item :: s.active.filter fun i => !(i.id == id)) :=
    perm_cons_filter_of_mem s.active item id hmem hpid hnodup
  have hclear : clearDeleted { item with deletedAt := some ts } =
      clearDeleted item := by
    obtain ⟨iid, ist, isn, isth, icl, ise, ica, istat, ida⟩ := item
    rfl
  have htrashf : (({ item with deletedAt := some ts } : HistoryItem) ::
      s.trash).filter (fun i => !(i.id == id)) = s.trash := by
    rw [List.filter_cons_of_neg (by simp [hpid])]
    exact List.filter_eq_self.mpr fun j hj => by simpa using htrash j hj
  have hs2 : restore id (softDelete id ts s) =
      ⟨item :: s.active.filter (fun i => !(i.id == id)), s.trash⟩ := by
    rw [hs1]
    rw [restore_eq_of_find { item with deletedAt := some ts }
      (List.find?_cons_of_pos _ (by simp [hpid]))]
    rw [hback]
    exact congrArg _ htrashf
  refine ⟨?_, ?_, hclear, ?_, ?_, ?_, ?_⟩
  · intro j hj
    rw [hs1] at hj
    have := List.of_mem_filter hj
    simpa using this
  · rw [hs1]
    exact List.mem_cons_self _ _
  · rw [hs1, List.map_append, List.map_append, List.map_cons, hclear]
    exact List.Perm.trans List.perm_middle
      ((hperm1.map clearDeleted).append_right (s.trash.map clearDeleted)).symm
  · rw [hs2]
  · rw [hs2]
    exact hperm1.symm
  · rw [hs2]
    exact List.mem_cons_self _ _

/-- A concrete clip record for the witness history items. -/
def histClip : GeneratedClip :=
  ⟨"g1", "Clip 1", "thumb", "0:30", "9:16", "minimal", true, "url", "url",
    "2025-01-01", some "funny", some (9/10), some 0, some 30⟩

def histA : HistoryItem :=
  ⟨"a", .youtube, "Video A", "ta", [histClip], demoSettings,
    "2025-01-01", .completed, none⟩

def histB : HistoryItem :=
  ⟨"b", .upload, "Video B", "tb", [], demoSettings,
    "2025-01-02", .failed, none⟩

def histT : HistoryItem :=
  ⟨"c", .twitch, "Video C", "tc", [], demoSettings,
    "2025-01-03", .completed, some "2025-02-01"⟩

/-- Concrete History page state: two active items, one trashed item. -/
def histState : HistoryState := ⟨[histA, histB], [histT]⟩

/-- Witness for claim C10: soft-deleting item `"a"` and restoring it
round-trips the concrete history state. -/
theorem soft_delete_restore_round_trip_witness :
    (histState.active.find? (fun i => i.id == "a") = some histA) ∧
    ({ histA with deletedAt := some "2025-03-01" } : HistoryItem) ∈
      (softDelete "a" "2025-03-01" histState).trash ∧
    (restore "a" (softDelete "a" "2025-03-01" histState)).trash =
      histState.trash ∧
    List.Perm (restore "a" (softDelete "a" "2025-03-01" histState)).active
      histState.active ∧
    histA ∈ (restore "a" (softDelete "a" "2025-03-01" histState)).active := by
  have h := soft_delete_restore_round_trip histState "a" "2025-03-01" histA
    rfl (by decide) (by decide) rfl
  exact ⟨rfl, h.2.1, h.2.2.2.2.1, h.2.2.2.2.2.1, h.2.2.2.2.2.2⟩

end TubeBite
